import Mathlib

/-!
Verification of the TOC reconciliation core of `toc-service`.

The Python sources (`toc_core.py`, `toc-core.py`, `toc_runner.py`, `toc-runner.py`,
`000_toc.py`) are shallowly embedded below.  A document is modelled as a list of
pages; a page, for the text-extraction functions, is the list of raw lines of its
extracted text (`get_text("text").splitlines()`), and for scan mode is the
block/line/span structure of `get_text("dict")`.  Font sizes and page geometry
are modelled over `ℚ`.  Python exceptions are modelled with `Except`/`Option`.
-/

namespace TocService

/-! ## Data model (`TocItem` dataclass, toc_core.py lines 22-27) -/

/-- The `TocItem` dataclass: title, 1-based original page, 1-based final page
(`-1` until resolved), level (0 = chapter, 1 = poem). -/
structure TocItem where
  title : String
  orig_page_1based : Nat
  final_page_1based : Int
  level : Int
deriving Repr, DecidableEq

/-- A page of extracted plain text, as its list of raw lines
(`doc[i].get_text("text").splitlines()`). -/
abbrev Page := List String

/-! ## Character-level string primitives

The Python operations `str.strip`, `str.lower`, `"x" in s` and whitespace splitting are
embedded as structurally recursive functions over the character list of a
`String` (the built-in `String` loops are position-based and are avoided). -/

/-- Python `s.strip()`: drop whitespace from both ends. -/
def strTrim (s : String) : String :=
  ⟨((s.data.dropWhile Char.isWhitespace).reverse.dropWhile Char.isWhitespace).reverse⟩

/-- Python `s.lower()` (ASCII letters; the heading comparisons only involve ASCII). -/
def strToLower (s : String) : String :=
  ⟨s.data.map Char.toLower⟩

/-- The words of a string: maximal runs of non-whitespace characters
(`s.split()` in Python).  `acc` holds the current word, reversed. -/
def wordsAux : List Char → List Char → List (List Char)
  | [], acc => if acc.isEmpty then [] else [acc.reverse]
  | c :: cs, acc =>
    if c.isWhitespace then
      if acc.isEmpty then wordsAux cs [] else acc.reverse :: wordsAux cs []
    else wordsAux cs (c :: acc)

/-- Join words with single spaces (`" ".join(...)`). -/
def joinSpace : List (List Char) → List Char
  | [] => []
  | [w] => w
  | w :: ws => w ++ ' ' :: joinSpace ws

/-! ## Text normalizer (`normalize_line`, toc_core.py lines 34-37)

`s.strip()` followed by `re.sub(r"\s+", " ", s)` collapses every whitespace run
to one space and trims the ends; equivalently, split into whitespace-separated
words and re-join with single spaces. -/

def normalize_line (s : String) : String :=
  ⟨joinSpace (wordsAux s.data [])⟩

/-- Embedding of `page_lines` (toc_core.py lines 40-43): normalized, non-empty lines of a page. -/
def page_lines (pg : Page) : List String :=
  (pg.map normalize_line).filter (fun l => !l.isEmpty)

/-! ## Heading search (`find_toc_page_index`, toc-core.py lines 50-55)

`re.search(r"\bTartalom\b", txt)`: an occurrence of the literal `Tartalom` whose
neighbouring characters (when present) are non-word characters.  Since the
literal starts and ends with word characters, `\b` is exactly that condition. -/

/-- The Python `\w` class (ASCII part): letters, digits, underscore. -/
def isWordChar (c : Char) : Bool := c.isAlphanum || c == '_'

/-- Does the first list occur at the head of the second? -/
def charsStartWith : List Char → List Char → Bool
  | [], _ => true
  | _ :: _, [] => false
  | a :: as, b :: bs => a == b && charsStartWith as bs

/-- Boundary `\b` on the left: at the start of the text, or after a non-word character. -/
def leftBoundaryOk : Option Char → Bool
  | none => true
  | some c => !isWordChar c

/-- Boundary `\b` on the right: at the end of the text, or before a non-word character. -/
def rightBoundaryOk : List Char → Bool
  | [] => true
  | c :: _ => !isWordChar c

/-- The word `w` occurs at the current position (previous character `prev`). -/
def wordMatchAt (w : List Char) (prev : Option Char) (s : List Char) : Bool :=
  leftBoundaryOk prev && charsStartWith w s && rightBoundaryOk (s.drop w.length)

/-- Scan the text for a whole-word occurrence of `w`. -/
def containsWordFrom (w : List Char) : Option Char → List Char → Bool
  | prev, [] => wordMatchAt w prev []
  | prev, c :: rest => wordMatchAt w prev (c :: rest) || containsWordFrom w (some c) rest

/-- The regex check `re.search(rf"\b{w}\b", s)` for a literal `w` made of word characters. -/
def containsWord (w s : String) : Bool :=
  containsWordFrom w.data none s.data

/-- The raw text of a page, lines re-joined with newlines (`get_text("text")`). -/
def pageText (pg : Page) : String := String.intercalate "\n" pg

/-- The page-index loop of `find_toc_page_index` (`for i in range(doc.page_count)`). -/
def searchHeading : List Page → Nat → Option Nat
  | [], _ => none
  | pg :: rest, i =>
    if containsWord "Tartalom" (pageText pg) then some i else searchHeading rest (i + 1)

/-- Embedding of `find_toc_page_index` (toc-core.py lines 50-55): first page whose text
contains `Tartalom` as a whole word; `none` models the `RuntimeError`. -/
def find_toc_page_index (doc : List Page) : Option Nat :=
  searchHeading doc 0

/-! ## Error taxonomy (spec section 7; Python raises `RuntimeError` with a message) -/

inductive TocError where
  | headingNotFound
  | emptyTitleList
  | titleNotFound (title : String)
  | fontResourceMissing
deriving Repr, DecidableEq

/-! ## Extraction-mode title source (`extract_toc_titles`, toc-core.py lines 58-78) -/

/-- The regex check `re.fullmatch(r"\d+", l)`: non-empty and all digits. -/
def isDigitLine (s : String) : Bool := !s.data.isEmpty && s.data.all Char.isDigit

/-- The collection loop of `extract_toc_titles` (lines 65-73): `inToc` is the
flag set once the full-line heading `Tartalom` has been seen. -/
def collectTitles : List String → Bool → List String
  | [], _ => []
  | l :: ls, inToc =>
    if l == "Tartalom" then collectTitles ls true
    else if !inToc then collectTitles ls inToc
    else if isDigitLine l then collectTitles ls inToc
    else l :: collectTitles ls inToc

/-- Embedding of `extract_toc_titles` (toc-core.py lines 58-78).  The trailing filter is
`[t for t in titles if t and t.lower() != "tartalom"]`. -/
def extract_toc_titles (doc : List Page) : Except TocError (List String) :=
  match find_toc_page_index doc with
  | none => .error .headingNotFound
  | some i =>
    let lines := page_lines (doc.getD i [])
    let titles := (collectTitles lines false).filter
      (fun t => !t.isEmpty && strToLower t != "tartalom")
    if titles.isEmpty then .error .emptyTitleList else .ok titles

/-! ## Occurrence resolver (`find_title_occurrence_ordered`, toc-core.py lines 98-136) -/

/-- Does `needle` occur as a contiguous segment of the haystack
(`re.search` with an escaped literal pattern)?  An empty needle matches. -/
def charsContain (needle : List Char) : List Char → Bool
  | [] => charsStartWith needle []
  | c :: rest => charsStartWith needle (c :: rest) || charsContain needle rest

/-- The full-line check `re.search(rf"(?m)^\s*{pattern}\s*$", txt)` for a normalized (trim-clean,
newline-free) title: some raw line strips to exactly `t`. -/
def matchesAsLine (t : String) (pg : Page) : Bool :=
  pg.any (fun l => strTrim l == t)

/-- The fallback check `re.search(pattern, txt)`: the title occurs anywhere in the page text. -/
def matchesAnywhere (t : String) (pg : Page) : Bool :=
  charsContain t.data (pageText pg).data

/-- A page satisfies the search for title `t`: both regex checks of lines
113-118 are applied to the same page before moving on, so the page is found
exactly when either matches. -/
def pageMatches (t : String) (pg : Page) : Bool :=
  matchesAsLine t pg || matchesAnywhere t pg

/-- The page loop `for p in range(cursor_page, doc.page_count)` (lines 111-118),
carrying the absolute index of the first remaining page. -/
def searchPages (t : String) : List Page → Nat → Option Nat
  | [], _ => none
  | pg :: rest, c => if pageMatches t pg then some c else searchPages t rest (c + 1)

/-- First page index `≥ c` whose text matches title `t`. -/
def searchFrom (doc : List Page) (t : String) (c : Nat) : Option Nat :=
  searchPages t (doc.drop c) c

/-- Embedding of `is_chapter_title_page` (toc-core.py lines 85-91): at most 3 non-empty
stripped lines, one of which equals the title. -/
def is_chapter_title_page (doc : List Page) (p : Nat) (t : String) : Bool :=
  let ls := ((doc.getD p []).map strTrim).filter (fun l => !l.isEmpty)
  ls.length ≤ 3 && ls.any (fun l => l == t)

/-- Embedding of `find_title_occurrence_ordered` (toc-core.py lines 98-136): for each title
in order, find the next matching page at or after the moving cursor; the cursor
then resumes at the page after the match.  `RuntimeError(f"Could not find title
in PDF: {t!r}")` is modelled by `TocError.titleNotFound t`. -/
def find_title_occurrence_ordered (doc : List Page) :
    List String → Nat → Except TocError (List TocItem)
  | [], _ => .ok []
  | t :: ts, c =>
    match searchFrom doc t c with
    | none => .error (.titleNotFound t)
    | some p =>
      (find_title_occurrence_ordered doc ts (p + 1)).map
        (fun rest =>
          ⟨t, p + 1, -1, if is_chapter_title_page doc p t then 0 else 1⟩ :: rest)

/-! ## Scan-mode title source (`build_toc_from_scan`, toc_core.py lines 50-104) -/

/-- A text span of `get_text("dict")`: font size and text. -/
structure Span where
  size : ℚ
  text : String
deriving Repr, DecidableEq

/-- A line of spans. -/
structure TextLine where
  spans : List Span
deriving Repr, DecidableEq

/-- A block: `type` 0 means text block. -/
structure Block where
  btype : Nat
  lines : List TextLine
deriving Repr, DecidableEq

/-- A page as returned by `get_text("dict")`. -/
structure ScanPage where
  blocks : List Block
deriving Repr, DecidableEq

/-- Font-size classification (toc_core.py lines 90-94):
`if size > 24: level = 0; elif 16 < size < 24: level = 1; else level = -1`. -/
def classify_run_size (size : ℚ) : Int :=
  if size > 24 then 0 else if 16 < size ∧ size < 24 then 1 else -1

/-- The reconstructed text of a line (`"".join(s["text"] for s in spans)`). -/
def lineText (ln : TextLine) : String :=
  String.join (ln.spans.map Span.text)

/-- First line of the first text block of a page, when present
(toc_core.py lines 60-70; each missing stage is a `continue`). -/
def firstTextLine (pg : ScanPage) : Option TextLine :=
  match pg.blocks.filter (fun b => b.btype == 0) with
  | [] => none
  | b :: _ =>
    match b.lines with
    | [] => none
    | ln :: _ => some ln

/-- The body of the scan loop for one page at index `p`
(toc_core.py lines 57-102): `none` means the page contributes no entry. -/
def scanPageItem (pg : ScanPage) (p : Nat) : Option TocItem :=
  match firstTextLine pg with
  | none => none
  | some ln =>
    match ln.spans with
    | [] => none
    | sp :: _ =>
      let title := normalize_line (lineText ln)
      if title.isEmpty then none
      else if classify_run_size sp.size ≠ -1 then
        some ⟨title, p + 1, -1, classify_run_size sp.size⟩
      else none

/-- The page loop `for p in range(start_page, doc.page_count)`, carrying the
absolute index of the first remaining page. -/
def scanLoop : List ScanPage → Nat → List TocItem
  | [], _ => []
  | pg :: rest, p =>
    match scanPageItem pg p with
    | some it => it :: scanLoop rest (p + 1)
    | none => scanLoop rest (p + 1)

/-- Embedding of `build_toc_from_scan` (toc_core.py lines 50-104): scan from page index 2. -/
def build_toc_from_scan (pages : List ScanPage) : List TocItem :=
  scanLoop (pages.drop 2) 2

/-! ## Pagination pass (000_toc.py) -/

/-- The seeding `for it in items: it.final_page_1based = it.orig_page_1based`
(000_toc.py lines 298-299, also the append policy of toc_runner.py lines 23-24
and toc-runner.py lines 25-26). -/
def assign_final_from_orig (items : List TocItem) : List TocItem :=
  items.map (fun it => { it with final_page_1based := (it.orig_page_1based : Int) })

/-- The renumbering loop of 000_toc.py lines 310-314 (and 320-324):
`if it.orig_page_1based >= insertion_index + 1: final = orig + toc_pages
else: final = orig`.  `N` is `insertion_index`, `k` is `toc_pages`. -/
def shiftPass (N k : Nat) (items : List TocItem) : List TocItem :=
  items.map (fun it =>
    if N + 1 ≤ it.orig_page_1based then
      { it with final_page_1based := ((it.orig_page_1based + k : Nat) : Int) }
    else
      { it with final_page_1based := (it.orig_page_1based : Int) })

/-- The pagination fixed-point procedure of `main` (000_toc.py lines 296-325),
with the reported render page count abstracted as `R` (the claims quantify
over a deterministic renderer).  Seed `final = orig`, render (`k0`), shift by
`k0`, re-render (`k1`); if `k1 ≠ k0` shift once more by `k1` and render again
(the result of that last render is discarded by the source, line 325).  Returns the
final item list and the reported `toc_pages`. -/
def runSolver (R : List TocItem → Nat) (N : Nat) (items : List TocItem) :
    List TocItem × Nat :=
  let items0 := assign_final_from_orig items
  let k0 := R items0
  let items1 := shiftPass N k0 items0
  let k1 := R items1
  if k1 = k0 then (items1, k0)
  else (shiftPass N k1 items1, k1)

/-! ## Document assembler (toc_runner.py lines 36-41, 000_toc.py lines 327-333)

`out.insert_pdf(doc); out.insert_pdf(toc_doc)` concatenates whole documents, so
a document is modelled as the list of its pages. -/

/-- Append policy: the whole original followed by the whole TOC document. -/
def assemble_append {α : Type} (src toc : List α) : List α :=
  src ++ toc

/-- Modelled from the spec: the splice insertion policy of section 4.7
("TOC spliced after a fixed prefix of N original pages") — only the append
policy is implemented under src/; concatenation of the N-page prefix, the TOC
pages, and the remaining source pages. -/
def assemble_splice {α : Type} (src toc : List α) (N : Nat) : List α :=
  src.take N ++ toc ++ src.drop N

/-! ## TOC page renderer (`render_toc_pdf`, 000_toc.py lines 132-211)

One millimetre in points (`reportlab.lib.units.mm = 72 / 25.4`), exactly in ℚ.
The page-break logic depends only on the vertical cursor, the page height and
the item levels, so it is embedded over ℚ; text drawing and glyph widths do
not influence the page count. -/

def mmQ : ℚ := 72 / 25.4

/-- The row loop of `render_toc_pdf` (lines 163-208), instrumented with the
number of pages laid out so far (the canvas starts on page 1; `c.showPage()`
starts a new page).  For a chapter row the extra `2.5mm` gap is applied before
the page-break check; after the (possible) break the heading is redrawn and
`12mm` consumed; the row then advances the cursor by its row height. -/
def renderLoop (top bottom : ℚ) : List TocItem → ℚ → Nat → ℚ × Nat
  | [], y, pages => (y, pages)
  | it :: rest, y, pages =>
    let isChapter := it.level == 0
    let y1 := if isChapter then y - 2.5 * mmQ else y
    let rowH : ℚ := if isChapter then 7.2 * mmQ else 6.2 * mmQ
    let next : ℚ × Nat :=
      if y1 < bottom then (top - 12 * mmQ, pages + 1) else (y1, pages)
    renderLoop top bottom rest (next.1 - rowH) next.2

/-- The number of pages `render_toc_pdf` lays out for a page of height `pageH`:
margins top 25mm / bottom 30mm, heading consuming 12mm at the top of every
page (lines 145-155, 179-184). -/
def render_toc_layout_pages (items : List TocItem) (pageH : ℚ) : Nat :=
  (renderLoop (pageH - 25 * mmQ) (30 * mmQ) items (pageH - 25 * mmQ - 12 * mmQ) 1).2

/-- The value `render_toc_pdf` actually returns (000_toc.py line 211):
the constant 1, regardless of the items or the page size. -/
def render_toc_pdf_ret (_items : List TocItem) (_pageH : ℚ) : Nat :=
  1

/-! ## Dot leader (`draw_dot_leader`, 000_toc.py lines 248-261 and
toc_core.py lines 135-153)

The `while x < x2: draw; x += step` loop is embedded with explicit fuel; a
`some n` result means the loop exited after drawing `n` dots, `none` means the
fuel ran out with the loop still running. -/

def dotLeaderLoop (x2 step : ℚ) : Nat → ℚ → Option Nat
  | 0, x => if x < x2 then none else some 0
  | fuel + 1, x =>
    if x < x2 then (dotLeaderLoop x2 step fuel (x + step)).map (fun n => n + 1)
    else some 0

/-- Embedding of `draw_dot_leader` of 000_toc.py: early return when `x2 <= x1` or when the
measured dot width is non-positive; otherwise the loop with
`step = dot_w * 1.35`. -/
def draw_dot_leader_000 (x1 x2 dotW : ℚ) (fuel : Nat) : Option Nat :=
  if x2 ≤ x1 then some 0
  else if dotW ≤ 0 then some 0
  else dotLeaderLoop x2 (dotW * 1.35) fuel x1

/-- Embedding of `draw_dot_leader` of toc_core.py: early return only when `x2 <= x1`;
no guard on the measured dot width. -/
def draw_dot_leader_core (x1 x2 dotW : ℚ) (fuel : Nat) : Option Nat :=
  if x2 ≤ x1 then some 0
  else dotLeaderLoop x2 (dotW * 1.35) fuel x1

/-! ## Spec-worded description of the extraction result

For the refinement claim about `extract_toc_titles` the exact spec wording
(section 4.2) is stated as a second definition, to be compared with the
embedding above: the normalized non-empty lines of the heading page occurring
after the full-line heading, excluding purely-digit lines and lines
case-insensitively equal to the heading, in page order.  The heading literal in
the code is `Tartalom`. -/

def specExtractTitles (lines : List String) : List String :=
  ((lines.dropWhile (fun l => !(l == "Tartalom"))).drop 1).filter
    (fun l => !isDigitLine l && strToLower l != "tartalom")

end TocService

namespace TocService

/-! # Supporting lemmas -/

/-- Keeping only the final pages: the record-update maps used by the
pagination pass commute with re-seeding. -/
theorem assign_shiftPass (N k : Nat) (l : List TocItem) :
    assign_final_from_orig (shiftPass N k l) = assign_final_from_orig l := by
  unfold assign_final_from_orig shiftPass
  rw [List.map_map]
  congr 1
  funext it
  cases it
  simp only [Function.comp]
  split <;> rfl

theorem assign_assign (l : List TocItem) :
    assign_final_from_orig (assign_final_from_orig l) = assign_final_from_orig l := by
  unfold assign_final_from_orig
  rw [List.map_map]
  congr 1

/-- The solver reads its item list only through the seeding pass. -/
theorem runSolver_congr (R : List TocItem → Nat) (N : Nat) {l items : List TocItem}
    (h : assign_final_from_orig l = assign_final_from_orig items) :
    runSolver R N l = runSolver R N items := by
  simp only [runSolver, h]

/-- The page-search loop never returns an index below its cursor. -/
theorem searchPages_le (t : String) :
    ∀ (l : List Page) (c p : Nat), searchPages t l c = some p → c ≤ p := by
  intro l
  induction l with
  | nil => intro c p h; simp [searchPages] at h
  | cons pg rest ih =>
    intro c p h
    unfold searchPages at h
    by_cases hm : pageMatches t pg
    · rw [if_pos hm] at h
      exact (Option.some_injective _ h).le
    · rw [if_neg hm] at h
      exact Nat.le_of_succ_le (ih (c + 1) p h)

theorem searchFrom_le (doc : List Page) (t : String) (c p : Nat)
    (h : searchFrom doc t c = some p) : c ≤ p :=
  searchPages_le t (doc.drop c) c p h

/-- Unfolding one step of the dropped-page view of the document. -/
theorem drop_cons_facts (doc : List Page) (c : Nat) (pg : Page) (rest : List Page)
    (h : doc.drop c = pg :: rest) :
    c < doc.length ∧ doc.getD c [] = pg ∧ doc.drop (c + 1) = rest := by
  have hlen : c < doc.length := by
    by_contra hc
    rw [List.drop_eq_nil_iff.mpr (by omega)] at h
    exact List.noConfusion h
  refine ⟨hlen, ?_, ?_⟩
  · have h0 : (doc.drop c)[0]? = doc[c + 0]? := List.getElem?_drop doc c 0
    rw [h] at h0
    simp only [List.getElem?_cons_zero] at h0
    rw [List.getD_eq_getElem?_getD, Nat.add_zero] at *
    rw [← h0]
    rfl
  · have : List.drop 1 (doc.drop c) = doc.drop (c + 1) := List.drop_drop 1 c doc
    rw [h] at this
    simpa using this.symm

/-- The page search of the resolver returns the first matching page at or after the
cursor: the returned index is in range, its page matches, and every page from
the cursor up to it does not. -/
theorem searchFrom_some_spec (doc : List Page) (t : String) :
    ∀ (c p : Nat), searchFrom doc t c = some p →
      c ≤ p ∧ p < doc.length ∧ pageMatches t (doc.getD p []) = true ∧
        ∀ q, c ≤ q → q < p → pageMatches t (doc.getD q []) = false := by
  have H : ∀ (l : List Page) (c : Nat), doc.drop c = l → ∀ p,
      searchPages t l c = some p →
      c ≤ p ∧ p < doc.length ∧ pageMatches t (doc.getD p []) = true ∧
        ∀ q, c ≤ q → q < p → pageMatches t (doc.getD q []) = false := by
    intro l
    induction l with
    | nil => intro c _ p h; simp [searchPages] at h
    | cons pg rest ih =>
      intro c hdrop p h
      obtain ⟨hclen, hget, hdrop'⟩ := drop_cons_facts doc c pg rest hdrop
      unfold searchPages at h
      by_cases hm : pageMatches t pg
      · rw [if_pos hm] at h
        obtain rfl : c = p := Option.some_injective _ h
        exact ⟨le_refl c, hclen, by rw [hget]; exact hm, fun q h1 h2 => absurd h1 (by omega)⟩
      · rw [if_neg hm] at h
        obtain ⟨h1, h2, h3, h4⟩ := ih (c + 1) hdrop' p h
        refine ⟨by omega, h2, h3, ?_⟩
        intro q hq1 hq2
        rcases Nat.eq_or_lt_of_le hq1 with hqc | hqc
        · rw [← hqc, hget]
          exact Bool.eq_false_iff.mpr hm
        · exact h4 q hqc hq2
  intro c p h
  exact H (doc.drop c) c rfl p h

/-- The page search of the resolver fails exactly when no page at or after the
cursor matches the title. -/
theorem searchFrom_none_iff (doc : List Page) (t : String) :
    ∀ (c : Nat), (searchFrom doc t c = none ↔
      ∀ q, c ≤ q → q < doc.length → pageMatches t (doc.getD q []) = false) := by
  have H : ∀ (l : List Page) (c : Nat), doc.drop c = l →
      (searchPages t l c = none ↔
        ∀ q, c ≤ q → q < doc.length → pageMatches t (doc.getD q []) = false) := by
    intro l
    induction l with
    | nil =>
      intro c hdrop
      have hlen : doc.length ≤ c := List.drop_eq_nil_iff.mp hdrop
      exact iff_of_true rfl (fun q h1 h2 => absurd h2 (by omega))
    | cons pg rest ih =>
      intro c hdrop
      obtain ⟨hclen, hget, hdrop'⟩ := drop_cons_facts doc c pg rest hdrop
      unfold searchPages
      by_cases hm : pageMatches t pg
      · rw [if_pos hm]
        refine iff_of_false (by simp) ?_
        intro hall
        have := hall c (le_refl c) hclen
        rw [hget] at this
        exact absurd this (by simp [hm])
      · rw [if_neg hm]
        rw [ih (c + 1) hdrop']
        constructor
        · intro hall q hq1 hq2
          rcases Nat.eq_or_lt_of_le hq1 with hqc | hqc
          · rw [← hqc, hget]
            exact Bool.eq_false_iff.mpr hm
          · exact hall q hqc hq2
        · intro hall q hq1 hq2
          exact hall q (by omega) hq2
  intro c
  exact H (doc.drop c) c rfl

/-- Whenever the resolver succeeds, all produced original pages lie strictly
beyond the starting cursor and are strictly increasing in list order. -/
theorem resolver_orig_increasing (doc : List Page) :
    ∀ (ts : List String) (c : Nat) (items : List TocItem),
      find_title_occurrence_ordered doc ts c = .ok items →
      (∀ it ∈ items, c < it.orig_page_1based) ∧
        List.Chain' (fun a b => a.orig_page_1based < b.orig_page_1based) items := by
  intro ts
  induction ts with
  | nil =>
    intro c items h
    obtain rfl : ([] : List TocItem) = items := by
      simpa [find_title_occurrence_ordered] using h
    simp
  | cons t ts ih =>
    intro c items h
    unfold find_title_occurrence_ordered at h
    cases hs : searchFrom doc t c with
    | none =>
      rw [hs] at h
      dsimp only at h
      exact absurd h (by simp)
    | some p =>
      rw [hs] at h
      dsimp only at h
      cases hr : find_title_occurrence_ordered doc ts (p + 1) with
      | error e =>
        rw [hr] at h
        exact absurd h (by simp [Except.map])
      | ok rest =>
        rw [hr] at h
        simp only [Except.map, Except.ok.injEq] at h
        obtain ⟨hall, hchain⟩ := ih (p + 1) rest hr
        have hcp : c ≤ p := searchFrom_le doc t c p hs
        subst h
        constructor
        · intro it hit
          rcases List.mem_cons.mp hit with rfl | hmem
          · simp only []
            omega
          · have := hall it hmem
            omega
        · refine List.chain'_cons'.mpr ⟨?_, hchain⟩
          intro y hy
          have := hall y (List.mem_of_mem_head? hy)
          simp only []
          omega

/-- A page that contributes a scan entry stamps it with its own 1-based number. -/
theorem scanPageItem_orig (pg : ScanPage) (p : Nat) (it : TocItem)
    (h : scanPageItem pg p = some it) : it.orig_page_1based = p + 1 := by
  unfold scanPageItem at h
  cases hft : firstTextLine pg with
  | none =>
    rw [hft] at h
    exact absurd h (by simp)
  | some ln =>
    rw [hft] at h
    obtain ⟨spans⟩ := ln
    dsimp only at h
    cases spans with
    | nil => exact absurd h (by simp)
    | cons sp tail =>
      dsimp only at h
      split_ifs at h with h1 h2
      obtain rfl := Option.some_injective _ h
      rfl

/-- The scan loop produces original pages strictly beyond the start index,
strictly increasing in list order. -/
theorem scanLoop_gt_chain :
    ∀ (l : List ScanPage) (p : Nat),
      (∀ it ∈ scanLoop l p, p < it.orig_page_1based) ∧
        List.Chain' (fun a b => a.orig_page_1based < b.orig_page_1based) (scanLoop l p) := by
  intro l
  induction l with
  | nil => intro p; simp [scanLoop]
  | cons pg rest ih =>
    intro p
    unfold scanLoop
    cases hit : scanPageItem pg p with
    | none =>
      obtain ⟨h1, h2⟩ := ih (p + 1)
      exact ⟨fun it h => by have := h1 it h; omega, h2⟩
    | some it0 =>
      obtain ⟨h1, h2⟩ := ih (p + 1)
      have ho := scanPageItem_orig pg p it0 hit
      refine ⟨?_, ?_⟩
      · intro it hmem
        rcases List.mem_cons.mp hmem with rfl | hm
        · omega
        · have := h1 it hm
          omega
      · refine List.chain'_cons'.mpr ⟨?_, h2⟩
        intro y hy
        have := h1 y (List.mem_of_mem_head? hy)
        omega

/-- Any entry produced by a page of the scanned segment belongs to the scan
output of the loop. -/
theorem scanLoop_mem_of_item :
    ∀ (l : List ScanPage) (p i : Nat) (h : i < l.length) (it : TocItem),
      scanPageItem (l.get ⟨i, h⟩) (p + i) = some it → it ∈ scanLoop l p := by
  intro l
  induction l with
  | nil => intro p i h; simp at h
  | cons pg rest ih =>
    intro p i h it hit
    unfold scanLoop
    cases i with
    | zero =>
      simp only [List.get] at hit
      rw [Nat.add_zero] at hit
      rw [hit]
      exact List.mem_cons_self _ _
    | succ j =>
      have hj : j < rest.length := by simpa using h
      have hrec : it ∈ scanLoop rest (p + 1) := by
        apply ih (p + 1) j hj it
        have : p + 1 + j = p + (j + 1) := by omega
        rw [this]
        exact hit
      cases scanPageItem pg p with
      | none => exact hrec
      | some it0 => exact List.mem_cons_of_mem _ hrec

/-- No line of the normalized page-line list is empty. -/
theorem page_lines_ne_empty (pg : Page) : ∀ l ∈ page_lines pg, l.isEmpty = false := by
  intro l hl
  have := (List.mem_filter.mp hl).2
  simpa using this

/-- If the heading never occurs as a (normalized) full line, the collection
flag is never set and nothing is collected. -/
theorem collectTitles_false_nil :
    ∀ (ls : List String), (∀ l ∈ ls, l ≠ "Tartalom") → collectTitles ls false = [] := by
  intro ls
  induction ls with
  | nil => intro _; rfl
  | cons l ls ih =>
    intro hall
    unfold collectTitles
    rw [if_neg (by simpa using hall l (List.mem_cons_self l ls))]
    simpa using ih (fun x hx => hall x (List.mem_cons_of_mem l hx))

/-- After the heading has been seen, the collection loop followed by the final
filter keeps exactly the non-digit lines not case-insensitively equal to the
heading (on lists without empty lines). -/
theorem collectTitles_true_filter :
    ∀ (ls : List String), (∀ l ∈ ls, l.isEmpty = false) →
      (collectTitles ls true).filter (fun t => !t.isEmpty && strToLower t != "tartalom") =
        ls.filter (fun l => !isDigitLine l && strToLower l != "tartalom") := by
  intro ls
  induction ls with
  | nil => intro _; rfl
  | cons l ls ih =>
    intro hall
    have hne : l.isEmpty = false := hall l (List.mem_cons_self l ls)
    have htail := ih (fun x hx => hall x (List.mem_cons_of_mem l hx))
    unfold collectTitles
    by_cases hT : l == "Tartalom"
    · rw [if_pos hT]
      have hl : l = "Tartalom" := by simpa using hT
      subst hl
      rw [htail, List.filter_cons, if_neg (by decide)]
    · rw [if_neg hT]
      simp only [Bool.not_true]
      rw [if_neg Bool.false_ne_true]
      by_cases hd : isDigitLine l = true
      · rw [if_pos hd, htail, List.filter_cons, if_neg (by simp [hd])]
      · rw [if_neg hd, List.filter_cons, List.filter_cons, htail]
        by_cases hlow : strToLower l == "tartalom"
        · have hlow' : strToLower l = "tartalom" := by simpa using hlow
          rw [if_neg (by simp [hlow']), if_neg (by simp [hlow'])]
        · have hlow' : ¬strToLower l = "tartalom" := by simpa using hlow
          have hd' : isDigitLine l = false := by simpa using hd
          rw [if_pos (by simp [hne, hlow']), if_pos (by simp [hd', hlow'])]

/-- Starting with the flag unset: the collection loop plus final filter equals
the description the spec gives of the extracted titles. -/
theorem collectTitles_spec :
    ∀ (ls : List String), (∀ l ∈ ls, l.isEmpty = false) →
      (collectTitles ls false).filter (fun t => !t.isEmpty && strToLower t != "tartalom") =
        specExtractTitles ls := by
  intro ls
  induction ls with
  | nil => intro _; rfl
  | cons l ls ih =>
    intro hall
    have htail := ih (fun x hx => hall x (List.mem_cons_of_mem l hx))
    unfold collectTitles specExtractTitles
    by_cases hT : l == "Tartalom"
    · rw [if_pos hT, List.dropWhile_cons_of_neg (by simp [hT])]
      simpa using collectTitles_true_filter ls (fun x hx => hall x (List.mem_cons_of_mem l hx))
    · rw [if_neg hT, List.dropWhile_cons_of_pos (by simp [hT])]
      simpa [specExtractTitles] using htail

/-- The dot-leader loop exits within fuel `m` whenever the remaining distance
is at most `m` positive steps. -/
theorem dotLeaderLoop_exits (x2 step : ℚ) (_hs : 0 < step) :
    ∀ (m : Nat) (x : ℚ), x2 - x ≤ m * step →
      ∃ n, dotLeaderLoop x2 step m x = some n := by
  intro m
  induction m with
  | zero =>
    intro x h
    refine ⟨0, ?_⟩
    unfold dotLeaderLoop
    rw [if_neg (by push_cast at h; linarith)]
  | succ m ih =>
    intro x h
    by_cases hx : x < x2
    · obtain ⟨n, hn⟩ := ih (x + step) (by push_cast at h ⊢; linarith)
      refine ⟨n + 1, ?_⟩
      unfold dotLeaderLoop
      rw [if_pos hx, hn]
      rfl
    · refine ⟨0, ?_⟩
      unfold dotLeaderLoop
      rw [if_neg hx]

end TocService

namespace TocService

/-! # The claims -/

/-- C1.  Shift correctness of the pagination pass: the renumbering loop keeps
the original page of every entry, assigns `finalPage = originalPage + k` to every
entry with `originalPage > N` and `finalPage = originalPage` to every entry
with `originalPage ≤ N`; when the original page of every entry is at most `N` (the
append policy uses `N` = source page count, and resolved pages never exceed
it), every entry gets `finalPage = originalPage`, as does the direct
append-policy assignment of toc_runner.py. -/
theorem claim_C1 : ∀ (N k : Nat) (items : List TocItem),
    (shiftPass N k items).map (fun it => it.orig_page_1based) =
        items.map (fun it => it.orig_page_1based) ∧
    (∀ it ∈ shiftPass N k items,
        (N < it.orig_page_1based →
          it.final_page_1based = (it.orig_page_1based : Int) + (k : Int)) ∧
        (it.orig_page_1based ≤ N →
          it.final_page_1based = (it.orig_page_1based : Int))) ∧
    ((∀ it ∈ items, it.orig_page_1based ≤ N) →
      ∀ it ∈ shiftPass N k items, it.final_page_1based = (it.orig_page_1based : Int)) ∧
    (∀ it ∈ assign_final_from_orig items,
      it.final_page_1based = (it.orig_page_1based : Int)) := by
  intro N k items
  refine ⟨?_, ?_, ?_, ?_⟩
  · unfold shiftPass
    rw [List.map_map]
    congr 1
    funext it
    cases it
    simp only [Function.comp]
    split <;> rfl
  · intro it hit
    obtain ⟨a, ha, rfl⟩ := List.mem_map.mp hit
    by_cases hc : N + 1 ≤ a.orig_page_1based
    · rw [if_pos hc]
      constructor
      · intro _
        push_cast
        rfl
      · intro hle
        exact absurd hle (by simp only []; omega)
    · rw [if_neg hc]
      constructor
      · intro hgt
        exact absurd hgt (by simp only []; omega)
      · intro _
        rfl
  · intro hall it hit
    obtain ⟨a, ha, rfl⟩ := List.mem_map.mp hit
    have := hall a ha
    rw [if_neg (by omega)]
  · intro it hit
    obtain ⟨a, ha, rfl⟩ := List.mem_map.mp hit
    rfl

/-- Witness for C1 at a concrete input: `N = 5`, `k = 2`, one entry on original
page 7 (shifted to 9) and one on page 3 under the append condition. -/
theorem claim_C1_witness :
    (TocItem.mk "a" 7 9 1).final_page_1based = ((7 : Nat) : Int) + ((2 : Nat) : Int) ∧
    (TocItem.mk "b" 3 3 1).final_page_1based = ((3 : Nat) : Int) := by
  constructor
  · exact ((claim_C1 5 2 [TocItem.mk "a" 7 (-1) 1]).2.1
      (TocItem.mk "a" 7 9 1) (by decide)).1 (by decide)
  · exact (claim_C1 5 2 [TocItem.mk "b" 3 (-1) 1]).2.2.1
      (by decide) (TocItem.mk "b" 3 3 1) (by decide)

/-- C7.  Assembler round-trip: under both insertion policies — TOC appended at
the end (the implemented `out.insert_pdf(doc); out.insert_pdf(toc_doc)`), and
TOC spliced after a prefix of `N` original pages (modelled from the spec) — the
page count of the assembled output equals source page count plus TOC page count. -/
theorem claim_C7 : ∀ (α : Type) (src toc : List α) (N : Nat),
    (assemble_append src toc).length = src.length + toc.length ∧
    (assemble_splice src toc N).length = src.length + toc.length := by
  intro α src toc N
  constructor
  · simp [assemble_append]
  · simp only [assemble_splice, List.length_append, List.length_take, List.length_drop]
    omega

/-- Witness for C7 at a concrete instance. -/
theorem claim_C7_witness :
    (assemble_append [10, 20] [30]).length = 3 ∧
    (assemble_splice [10, 20] [30] 1).length = 3 :=
  claim_C7 Nat [10, 20] [30] 1

/-- C8.  Idempotence of the pagination fixed-point solver: re-running the
solver on the item list it produced (the state the mutating Python loop leaves
behind) yields exactly the same final pages and the same reported TOC page
count, for every insertion point and every deterministic renderer, because the
solver re-seeds `finalPage = originalPage` before rendering. -/
theorem claim_C8 : ∀ (R : List TocItem → Nat) (N : Nat) (items : List TocItem),
    runSolver R N (runSolver R N items).1 = runSolver R N items := by
  intro R N items
  apply runSolver_congr
  simp only [runSolver]
  split
  · rw [assign_shiftPass, assign_assign]
  · rw [assign_shiftPass, assign_shiftPass, assign_assign]

/-- C10.  Termination of the dot-leader loop: both variants return at once,
drawing nothing, when `x2 ≤ x1`; the 000_toc.py variant additionally returns
at once when the measured dot width is non-positive; and when the dot width is
positive the loops of both variants terminate (some finite fuel suffices), each
iteration advancing by the positive step `1.35 ×` dot width. -/
theorem claim_C10 : ∀ (x1 x2 dotW : ℚ),
    (x2 ≤ x1 → ∀ fuel, draw_dot_leader_000 x1 x2 dotW fuel = some 0 ∧
        draw_dot_leader_core x1 x2 dotW fuel = some 0) ∧
    (dotW ≤ 0 → ∀ fuel, draw_dot_leader_000 x1 x2 dotW fuel = some 0) ∧
    (0 < dotW → ∃ fuel n, draw_dot_leader_000 x1 x2 dotW fuel = some n) ∧
    (0 < dotW → ∃ fuel n, draw_dot_leader_core x1 x2 dotW fuel = some n) := by
  intro x1 x2 dotW
  have hstep : 0 < dotW → 0 < dotW * 1.35 := fun h => by positivity
  have hterm : 0 < dotW → ∃ fuel n, dotLeaderLoop x2 (dotW * 1.35) fuel x1 = some n := by
    intro h
    obtain ⟨m, hm⟩ := exists_nat_ge ((x2 - x1) / (dotW * 1.35))
    obtain ⟨n, hn⟩ := dotLeaderLoop_exits x2 (dotW * 1.35) (hstep h) m x1
      (by rw [div_le_iff₀ (hstep h)] at hm; linarith)
    exact ⟨m, n, hn⟩
  refine ⟨?_, ?_, ?_, ?_⟩
  · intro hle fuel
    constructor
    · unfold draw_dot_leader_000
      rw [if_pos hle]
    · unfold draw_dot_leader_core
      rw [if_pos hle]
  · intro hw fuel
    unfold draw_dot_leader_000
    by_cases hle : x2 ≤ x1
    · rw [if_pos hle]
    · rw [if_neg hle, if_pos hw]
  · intro h
    by_cases hle : x2 ≤ x1
    · exact ⟨0, 0, by unfold draw_dot_leader_000; rw [if_pos hle]⟩
    · obtain ⟨fuel, n, hfn⟩ := hterm h
      refine ⟨fuel, n, ?_⟩
      unfold draw_dot_leader_000
      rw [if_neg hle, if_neg (by linarith), hfn]
  · intro h
    by_cases hle : x2 ≤ x1
    · exact ⟨0, 0, by unfold draw_dot_leader_core; rw [if_pos hle]⟩
    · obtain ⟨fuel, n, hfn⟩ := hterm h
      refine ⟨fuel, n, ?_⟩
      unfold draw_dot_leader_core
      rw [if_neg hle, hfn]

/-- Witness for C10: the early return at `x1 = 1 > x2 = 0`, and termination of
the unguarded variant at `x1 = 0 < x2 = 1` with dot width 1. -/
theorem claim_C10_witness :
    (draw_dot_leader_000 1 0 5 3 = some 0 ∧ draw_dot_leader_core 1 0 5 3 = some 0) ∧
    (∃ fuel n, draw_dot_leader_core 0 1 1 fuel = some n) :=
  ⟨(claim_C10 1 0 5).1 (by norm_num) 3, (claim_C10 0 1 1).2.2.2 (by norm_num)⟩

/-- C3.  Reading-order invariant: whenever the Occurrence Resolver succeeds,
the produced original pages are strictly increasing in list order
(each search resumes at the page after the previous match, so duplicate titles
resolve to distinct increasing pages); and scan mode always produces entries
with strictly increasing original pages (at most one entry per page, pages in
order). -/
theorem claim_C3 :
    (∀ (doc : List Page) (titles : List String) (cursor : Nat) (items : List TocItem),
        find_title_occurrence_ordered doc titles cursor = .ok items →
        List.Chain' (fun a b => a.orig_page_1based < b.orig_page_1based) items) ∧
    (∀ (pages : List ScanPage),
        List.Chain' (fun a b => a.orig_page_1based < b.orig_page_1based)
          (build_toc_from_scan pages)) :=
  ⟨fun doc titles cursor items h => (resolver_orig_increasing doc titles cursor items h).2,
   fun pages => (scanLoop_gt_chain (pages.drop 2) 2).2⟩

/-- Witness for C3: a duplicated title resolves to pages 1 then 2, in strictly
increasing order. -/
theorem claim_C3_witness :
    List.Chain' (fun a b => a.orig_page_1based < b.orig_page_1based)
      [(⟨"A", 1, -1, 0⟩ : TocItem), ⟨"A", 2, -1, 1⟩] :=
  claim_C3.1 [["A"], ["A x"]] ["A", "A"] 0
    [⟨"A", 1, -1, 0⟩, ⟨"A", 2, -1, 1⟩] rfl

/-- C4.  Occurrence Resolver contract, one resolution step: the page search
returns exactly the first page index at or after the cursor whose text matches
the title (as a standalone trimmed line or anywhere as a substring — both
checks are applied to each page in turn, so the first page satisfying either
wins and there is no backtracking); on success the resolver prepends an entry
whose `originalPage` is the 1-based number of that page and continues past it; the
search fails exactly when no page at or after the cursor matches, and then the
resolver aborts with the fatal error naming the offending title. -/
theorem claim_C4 : ∀ (doc : List Page) (t : String) (ts : List String) (c : Nat),
    (∀ p, searchFrom doc t c = some p →
        (c ≤ p ∧ p < doc.length ∧ pageMatches t (doc.getD p []) = true ∧
          ∀ q, c ≤ q → q < p → pageMatches t (doc.getD q []) = false) ∧
        find_title_occurrence_ordered doc (t :: ts) c =
          (find_title_occurrence_ordered doc ts (p + 1)).map
            (fun rest =>
              (⟨t, p + 1, -1,
                if is_chapter_title_page doc p t then 0 else 1⟩ : TocItem) :: rest)) ∧
    (searchFrom doc t c = none ↔
      ∀ q, c ≤ q → q < doc.length → pageMatches t (doc.getD q []) = false) ∧
    (searchFrom doc t c = none →
      find_title_occurrence_ordered doc (t :: ts) c = .error (.titleNotFound t)) := by
  intro doc t ts c
  refine ⟨?_, searchFrom_none_iff doc t c, ?_⟩
  · intro p hp
    refine ⟨searchFrom_some_spec doc t c p hp, ?_⟩
    conv_lhs => rw [find_title_occurrence_ordered]
    rw [hp]
  · intro hn
    conv_lhs => rw [find_title_occurrence_ordered]
    rw [hn]

/-- Witness for C4: on a two-page document whose second page carries the title,
the search finds page index 1 and the resolver records original page 2. -/
theorem claim_C4_witness :
    find_title_occurrence_ordered [["x"], ["T"]] ["T"] 0 = .ok [⟨"T", 2, -1, 0⟩] := by
  have h := ((claim_C4 [["x"], ["T"]] "T" [] 0).1 1 rfl).2
  rw [h]
  rfl

/-- An entry contributed by page index `p ≥ 2` of the document belongs to the
scan output. -/
theorem scanLoop_mem_abs (pages : List ScanPage) (p : Nat) (hp : p < pages.length)
    (hstart : 2 ≤ p) (it : TocItem)
    (hit : scanPageItem (pages.get ⟨p, hp⟩) p = some it) :
    it ∈ build_toc_from_scan pages := by
  unfold build_toc_from_scan
  have hlen : p - 2 < (pages.drop 2).length := by rw [List.length_drop]; omega
  apply scanLoop_mem_of_item (pages.drop 2) 2 (p - 2) hlen it
  have hidx : 2 + (p - 2) = p := by omega
  have hget : (pages.drop 2).get ⟨p - 2, hlen⟩ = pages.get ⟨p, hp⟩ := by
    have h1 : (pages.drop 2)[p - 2]? = pages[2 + (p - 2)]? := List.getElem?_drop pages 2 (p - 2)
    rw [hidx] at h1
    rw [List.getElem?_eq_getElem hlen, List.getElem?_eq_getElem hp] at h1
    simpa using Option.some_injective _ h1
  rw [hget, hidx]
  exact hit

/-- C5 (counterexample to the claim as stated): a page whose first run has font
size exactly 24 contributes no entry at all — the test in the code is the strict
`16 < size < 24`, so the claimed "size exactly 24 → Entry" fails.  Under the
claim, page index 2 below would produce an Entry with original page 3; the
scan returns the empty list. -/
theorem claim_C5_counterexample :
    build_toc_from_scan [⟨[]⟩, ⟨[]⟩, ⟨[⟨0, [⟨[⟨24, "T"⟩]⟩]⟩]⟩] = [] := by
  decide

/-- C5 (amended).  Scan-mode classification: for a page (at index `p ≥ 2` of
the scanned range) whose first span of the first line of the first text block
has font size `s` and whose reconstructed first-line title is non-empty, the
scan produces a Chapter entry (`level` 0) when `s > 24`, an Entry (`level` 1)
when `16 < s < 24`, and no entry when `s ≤ 16` or `s = 24`; each produced
entry has `originalPage = p + 1` and `finalPage` unset (−1).  So size 26 →
Chapter, 18 → Entry, 12 → skipped, and exactly 24 → skipped. -/
theorem claim_C5 : ∀ (pages : List ScanPage) (p : Nat) (hp : p < pages.length),
    2 ≤ p → ∀ (ln : TextLine) (sp : Span) (rest : List Span),
    firstTextLine (pages.get ⟨p, hp⟩) = some ln →
    ln.spans = sp :: rest →
    (normalize_line (lineText ln)).isEmpty = false →
    ((24 < sp.size →
        (⟨normalize_line (lineText ln), p + 1, -1, 0⟩ : TocItem) ∈
          build_toc_from_scan pages) ∧
     (16 < sp.size ∧ sp.size < 24 →
        (⟨normalize_line (lineText ln), p + 1, -1, 1⟩ : TocItem) ∈
          build_toc_from_scan pages) ∧
     ((sp.size ≤ 16 ∨ sp.size = 24) →
        scanPageItem (pages.get ⟨p, hp⟩) p = none)) := by
  intro pages p hp hstart ln sp rest hft hsp hne
  obtain ⟨spans⟩ := ln
  dsimp only at hsp
  subst hsp
  have hitem : ∀ (lv : Int), classify_run_size sp.size = lv → lv ≠ -1 →
      scanPageItem (pages.get ⟨p, hp⟩) p =
        some ⟨normalize_line (lineText ⟨sp :: rest⟩), p + 1, -1, lv⟩ := by
    intro lv hlv hlvne
    unfold scanPageItem
    rw [hft]
    dsimp only
    rw [if_neg (by simp [hne]), if_pos (by rw [hlv]; exact hlvne), hlv]
  refine ⟨?_, ?_, ?_⟩
  · intro hs
    have hlv : classify_run_size sp.size = 0 := by
      unfold classify_run_size
      rw [if_pos hs]
    exact scanLoop_mem_abs pages p hp hstart _ (hitem 0 hlv (by decide))
  · intro hs
    have hlv : classify_run_size sp.size = 1 := by
      unfold classify_run_size
      rw [if_neg (by linarith [hs.2]), if_pos hs]
    exact scanLoop_mem_abs pages p hp hstart _ (hitem 1 hlv (by decide))
  · intro hs
    have hlv : classify_run_size sp.size = -1 := by
      unfold classify_run_size
      rcases hs with hs | hs
      · rw [if_neg (by linarith), if_neg (by rintro ⟨h1, _⟩; linarith)]
      · rw [if_neg (by rw [hs]; norm_num), if_neg (by rw [hs]; rintro ⟨_, h2⟩; linarith)]
    unfold scanPageItem
    rw [hft]
    dsimp only
    rw [if_neg (by simp [hne]), if_neg (by rw [hlv]; simp)]

/-- Witness for C5 (amended): a first-run size of 26 yields a Chapter entry for
page index 2, original page 3. -/
theorem claim_C5_witness :
    (⟨"Chap", 3, -1, 0⟩ : TocItem) ∈
      build_toc_from_scan [⟨[]⟩, ⟨[]⟩, ⟨[⟨0, [⟨[⟨26, "Chap"⟩]⟩]⟩]⟩] := by
  have h := (claim_C5 [⟨[]⟩, ⟨[]⟩, ⟨[⟨0, [⟨[⟨26, "Chap"⟩]⟩]⟩]⟩] 2 (by norm_num)
      (by norm_num) ⟨[⟨26, "Chap"⟩]⟩ ⟨26, "Chap"⟩ [] rfl rfl (by decide)).1 (by norm_num)
  exact h

/-- C6.  Extraction-mode title filtering (refinement): whenever the heading
page is found, `extract_toc_titles` returns exactly the spec-described list —
the normalized non-empty lines of that page after the full-line heading,
without purely-digit lines and without lines case-insensitively equal to the
heading, in page order — and raises the fatal empty-result error precisely
when that list is empty. -/
theorem claim_C6 : ∀ (doc : List Page) (i : Nat),
    find_toc_page_index doc = some i →
    extract_toc_titles doc =
      (if (specExtractTitles (page_lines (doc.getD i []))).isEmpty
       then .error .emptyTitleList
       else .ok (specExtractTitles (page_lines (doc.getD i [])))) := by
  intro doc i hfind
  simp only [extract_toc_titles, hfind]
  rw [collectTitles_spec (page_lines (doc.getD i [])) (page_lines_ne_empty _)]

/-- Witness for C6: the spec scenario with the heading literal of the code — lines
`["Tartalom", "Poem A", "3", "Poem B"]` yield `["Poem A", "Poem B"]`. -/
theorem claim_C6_witness :
    extract_toc_titles [["Tartalom", "Poem A", "3", "Poem B"]] =
      .ok ["Poem A", "Poem B"] := by
  have h := claim_C6 [["Tartalom", "Poem A", "3", "Poem B"]] 0 rfl
  rw [h]
  rfl

/-- C9.  Implicit extraction edge case: when the heading occurs as a whole
word only inside longer lines — so `find_toc_page_index` succeeds but no
normalized line of the found page equals `Tartalom` exactly — the collection
flag is never set, zero titles are collected, and `extract_toc_titles` fails
with the empty-result error even though the page has other usable lines. -/
theorem claim_C9 : ∀ (doc : List Page) (i : Nat),
    find_toc_page_index doc = some i →
    (∀ l ∈ page_lines (doc.getD i []), l ≠ "Tartalom") →
    collectTitles (page_lines (doc.getD i [])) false = [] ∧
    extract_toc_titles doc = .error .emptyTitleList := by
  intro doc i hfind hnone
  have hc := collectTitles_false_nil (page_lines (doc.getD i [])) hnone
  refine ⟨hc, ?_⟩
  simp only [extract_toc_titles, hfind]
  rw [hc]
  rfl

/-- Witness for C9: the heading occurs only inside the longer line
`"A Tartalom B"`; the page is found, yet extraction reports the empty-result
error despite the other line `"Poem X"`. -/
theorem claim_C9_witness :
    extract_toc_titles [["A Tartalom B", "Poem X"]] = .error .emptyTitleList :=
  (claim_C9 [["A Tartalom B", "Poem X"]] 0 rfl (by decide)).2

/-- C2 (code bug).  The renderer lays out two pages for 25 single-level rows on
an A5-height page (the 25th row crosses the bottom margin and forces a page
break), yet `render_toc_pdf` returns the constant 1 (000_toc.py line 211), not
the number of pages it produced. -/
theorem claim_C2_bug :
    render_toc_layout_pages (List.replicate 25 ⟨"t", 1, 1, 1⟩) (210 * mmQ) = 2 ∧
    render_toc_pdf_ret (List.replicate 25 ⟨"t", 1, 1, 1⟩) (210 * mmQ) = 1 := by
  constructor
  · norm_num [render_toc_layout_pages, renderLoop, mmQ, List.replicate]
  · rfl

end TocService
